import Mathlib

/-!
Verification development for the range-serving and control-relay core of the
`stream_stark` repository (`src/app/server.py`).  The HTTP payloads and header
values are modelled as Lean lists and strings; Python string operations used by
the code (`str.strip`, `str.split`, `int`) are embedded as executable functions
on `List Char`, restricted to the characters that can occur in an HTTP header
value (the latin-1 range).
-/

/-- Whitespace characters stripped by Python `str.strip()`, restricted to the
latin-1 range (HTTP header values cannot carry characters above U+00FF). -/
def pyWs (c : Char) : Bool :=
  c.toNat = 9 || c.toNat = 10 || c.toNat = 11 || c.toNat = 12 || c.toNat = 13 ||
  c.toNat = 28 || c.toNat = 29 || c.toNat = 30 || c.toNat = 31 || c.toNat = 32 ||
  c.toNat = 133 || c.toNat = 160

/-- Whitespace characters accepted around an integer literal by Python
`int()` within latin-1 (unlike `str.strip()`, the separators 0x1c-0x1f are
rejected there). -/
def pyIntWs (c : Char) : Bool :=
  c.toNat = 9 || c.toNat = 10 || c.toNat = 11 || c.toNat = 12 || c.toNat = 13 ||
  c.toNat = 32 || c.toNat = 133 || c.toNat = 160

/-- ASCII decimal digit test, as used by Python `int()` on header text. -/
def isAsciiDigit (c : Char) : Bool := 48 ≤ c.toNat && c.toNat ≤ 57

/-- Model of Python `str.strip()`: remove leading and trailing whitespace. -/
def stripChars (cs : List Char) : List Char :=
  ((cs.dropWhile pyWs).reverse.dropWhile pyWs).reverse

/-- Leading and trailing whitespace removal as performed by `int()`. -/
def stripIntWs (cs : List Char) : List Char :=
  ((cs.dropWhile pyIntWs).reverse.dropWhile pyIntWs).reverse

/-- Model of Python `s.split(sep)` for a one-character separator: split at
every occurrence; the empty string yields `[""]`. -/
def splitAllChar (sep : Char) : List Char → List (List Char)
  | [] => [[]]
  | c :: rest =>
    if c = sep then [] :: splitAllChar sep rest
    else
      match splitAllChar sep rest with
      | [] => [[c]]
      | g :: gs => (c :: g) :: gs

/-- Model of Python `s.split(sep, 1)` followed by unpacking into two names:
returns the pieces before and after the first occurrence of `sep`, or `none`
(the `ValueError` case) when `sep` does not occur. -/
def splitOnceChar (sep : Char) : List Char → Option (List Char × List Char)
  | [] => none
  | c :: rest =>
    if c = sep then some ([], rest)
    else (splitOnceChar sep rest).map (fun p => (c :: p.1, p.2))

/-- Digit-group well-formedness after the optional sign in Python `int()`:
every underscore must sit between two digits. -/
def digitsTail : List Char → Bool
  | [] => true
  | [c] => isAsciiDigit c
  | c :: d :: rest =>
    (if c = '_' then isAsciiDigit d else isAsciiDigit c) && digitsTail (d :: rest)

/-- A nonempty digit group (digits with optional single interior underscores)
as accepted by Python `int()` after stripping whitespace and sign. -/
def pyDigitGroupOk (cs : List Char) : Bool :=
  match cs with
  | [] => false
  | c :: _ => isAsciiDigit c && digitsTail cs

/-- Value of a list of decimal digit characters, most significant first. -/
def digitsVal (cs : List Char) : Nat :=
  cs.foldl (fun a c => a * 10 + (c.toNat - 48)) 0

/-- Numeric value of a digit group, ignoring interior underscores. -/
def pyIntVal (cs : List Char) : Nat := digitsVal (cs.filter isAsciiDigit)

/-- Model of Python `int(s)` on header text: strip whitespace, read an optional
sign, then a digit group; any other shape raises (returns `none`). -/
def pyInt? (s : List Char) : Option Int :=
  match stripIntWs s with
  | [] => none
  | c :: rest =>
    if c = '+' then
      if pyDigitGroupOk rest then some (pyIntVal rest) else none
    else if c = '-' then
      if pyDigitGroupOk rest then some (-(pyIntVal rest : Int)) else none
    else
      if pyDigitGroupOk (c :: rest) then some (pyIntVal (c :: rest)) else none

/-- Decimal digit character for a value below ten. -/
def digitChar : Nat → Char
  | 0 => '0' | 1 => '1' | 2 => '2' | 3 => '3' | 4 => '4'
  | 5 => '5' | 6 => '6' | 7 => '7' | 8 => '8' | 9 => '9'
  | _ => '*'

/-- Fuel-indexed decimal digit expansion (the fuel bounds the recursion depth
so the definition is structural and kernel-computable). -/
def natDigitsAux : Nat → Nat → List Char
  | 0, _ => []
  | fuel + 1, n =>
    if n < 10 then [digitChar n]
    else natDigitsAux fuel (n / 10) ++ [digitChar (n % 10)]

/-- Decimal digit string of a natural number, most significant digit first. -/
def natDigits (n : Nat) : List Char := natDigitsAux (n + 1) n

/-- Decimal string of a natural number (model of Python `str` on a
nonnegative int). -/
def natStr (n : Nat) : String := String.mk (natDigits n)

/-- Decimal string of an integer (model of Python `str` on an int). -/
def intStr (i : Int) : String :=
  if i < 0 then "-" ++ String.mk (natDigits i.natAbs) else String.mk (natDigits i.toNat)

-- Basic facts about the digit machinery.

theorem digitChar_toNat {n : Nat} (h : n < 10) : (digitChar n).toNat = 48 + n := by
  interval_cases n <;> rfl

theorem isAsciiDigit_digitChar {n : Nat} (h : n < 10) : isAsciiDigit (digitChar n) = true := by
  interval_cases n <;> rfl

theorem natDigitsAux_spec :
    ∀ fuel n, n < fuel →
      natDigitsAux fuel n ≠ [] ∧
      (∀ c ∈ natDigitsAux fuel n, isAsciiDigit c = true) ∧
      digitsVal (natDigitsAux fuel n) = n := by
  intro fuel
  induction fuel with
  | zero => intro n h; omega
  | succ fuel ih =>
    intro n h
    by_cases h10 : n < 10
    · refine ⟨by simp [natDigitsAux, h10], ?_, ?_⟩
      · intro c hc
        simp [natDigitsAux, h10] at hc
        subst hc
        exact isAsciiDigit_digitChar h10
      · simp [natDigitsAux, h10, digitsVal, digitChar_toNat h10]
    · have hd : n / 10 < fuel := by omega
      obtain ⟨hne, hdig, hval⟩ := ih (n / 10) hd
      have hm : n % 10 < 10 := Nat.mod_lt _ (by omega)
      refine ⟨by simp [natDigitsAux, h10], ?_, ?_⟩
      · intro c hc
        simp [natDigitsAux, h10] at hc
        rcases hc with hc | hc
        · exact hdig c hc
        · subst hc; exact isAsciiDigit_digitChar hm
      · simp only [natDigitsAux, h10, if_false, digitsVal, List.foldl_append]
        have : digitsVal (natDigitsAux fuel (n / 10)) = n / 10 := hval
        simp only [digitsVal] at this
        rw [this]
        simp only [List.foldl_cons, List.foldl_nil, digitChar_toNat hm]
        omega

theorem natDigits_ne_nil (n : Nat) : natDigits n ≠ [] :=
  (natDigitsAux_spec (n + 1) n (Nat.lt_succ_self n)).1

theorem natDigits_all_digits (n : Nat) : ∀ c ∈ natDigits n, isAsciiDigit c = true :=
  (natDigitsAux_spec (n + 1) n (Nat.lt_succ_self n)).2.1

theorem digitsVal_natDigits (n : Nat) : digitsVal (natDigits n) = n :=
  (natDigitsAux_spec (n + 1) n (Nat.lt_succ_self n)).2.2

/-!
The range-serving model, embedded from `send_with_range` in
`src/app/server.py` (lines 53-100).
-/

/-- Chunk size constant, `CHUNK = 1024 * 64` (server.py line 30). -/
def CHUNK : Nat := 1024 * 64

/-- Model of the range-header parse in the `try` block of `send_with_range`
(server.py lines 70-74): `units, rng = range_header.split("=")` requires
exactly one `=` (the units token is never inspected); `start_s, end_s =
rng.split("-", 1)` requires a `-`; an omitted start defaults to `0`, an
omitted end to `file_size - 1`; nonempty bounds go through `int()`.  `none`
is the exception path caught by the bare `except`. -/
def parseRange (rh : List Char) (file_size : Nat) : Option (Int × Int) :=
  match splitAllChar '=' rh with
  | [_units, rng] =>
    match splitOnceChar '-' rng with
    | none => none
    | some (start_s, end_s) =>
      match (if start_s.isEmpty then some (0 : Int) else pyInt? start_s),
            (if end_s.isEmpty then some ((file_size : Int) - 1) else pyInt? end_s) with
      | some a, some b => some (a, b)
      | _, _ => none
  | _ => none

/-- Model of `f.read(n)` on a regular file whose contents are `file`, with the
read head at byte `pos`: returns at most `n` bytes, empty exactly at EOF. -/
def pyRead (file : List Nat) (pos n : Nat) : List Nat := (file.drop pos).take n

/-- Fuel-indexed body of the `generate` loop in `send_with_range` (server.py
lines 85-94): read `min(CHUNK, remaining)` bytes, stop on an empty read or
when `remaining` reaches zero, otherwise yield the chunk and decrease
`remaining` by its length.  The fuel only bounds the recursion depth (each
iteration consumes at least one byte of `remaining`, so fuel `remaining`
is always enough) and keeps the definition structural. -/
def generateAux (file : List Nat) : Nat → Nat → Nat → List (List Nat)
  | 0, _, _ => []
  | fuel + 1, pos, remaining =>
    if remaining = 0 then []
    else
      let chunk := pyRead file pos (min CHUNK remaining)
      if chunk.isEmpty then []
      else chunk :: generateAux file fuel (pos + chunk.length) (remaining - chunk.length)

/-- The chunk stream produced by the `generate` generator after
`f.seek(start)` with `remaining = length`. -/
def generate (file : List Nat) (start length : Nat) : List (List Nat) :=
  generateAux file length start length

/-- HTTP method of the download endpoints (`GET` or `HEAD`). -/
inductive Method where
  | GET
  | HEAD
deriving DecidableEq

/-- Response produced by the file endpoints.  `headers` records, in assignment
order, the headers the application sets explicitly (plus `Content-Type`,
`Content-Disposition` and `Content-Length` contributed by `send_file` per its
contract); transport-level defaults such as `Date` are outside the model.
`bodyChunks` is the streamed body; `bytesRead` counts artifact bytes read
while serving the response. -/
structure Resp where
  status : Nat
  headers : List (String × String)
  bodyChunks : List (List Nat)
  jsonBody : Option (List (String × String))
  bytesRead : Nat
deriving DecidableEq

/-- Header assignment `resp.headers[k] = v`: overwrite an existing entry in
place, otherwise append. -/
def setHeader (hs : List (String × String)) (k v : String) : List (String × String) :=
  if hs.any (fun p => p.1 = k) then hs.map (fun p => if p.1 = k then (k, v) else p)
  else hs ++ [(k, v)]

/-- Content-Disposition value produced by the endpoints. -/
def attachmentHeader (download_name : String) : String :=
  "attachment; filename=\"" ++ download_name ++ "\""

/-- Model of `send_file(path, mimetype=mime, as_attachment=True,
download_name=...)`: a 200 response carrying the whole artifact with
`Content-Type`, `Content-Disposition` and `Content-Length` headers, per the
spec's collaborator contract for the storage-backed full download. -/
def sendFileResp (file : List Nat) (mime download_name : String) : Resp :=
  { status := 200
    headers := [("Content-Type", mime),
                ("Content-Disposition", attachmentHeader download_name),
                ("Content-Length", natStr file.length)]
    bodyChunks := [file]
    jsonBody := none
    bytesRead := file.length }

/-- Full-content response: `send_file` wrapped in `make_response` with
`Accept-Ranges` and `Content-Length` set afterwards (server.py lines 65-69
and 80-83, which are identical). -/
def fullResp (file : List Nat) (mime download_name : String) : Resp :=
  let r := sendFileResp file mime download_name
  { r with headers := setHeader (setHeader r.headers "Accept-Ranges" "bytes")
                        "Content-Length" (natStr file.length) }

/-- Embedding of `send_with_range(path, mime, download_name)` (server.py lines
53-100).  The artifact is `none` when `os.path.exists` fails, otherwise the
byte contents; the `Range` header is `none` when absent (Flask then yields
the default `""`). -/
def send_with_range (file? : Option (List Nat)) (mime download_name : String)
    (method : Method) (rangeHdr : Option String) : Resp :=
  match file? with
  | none =>
    { status := 404, headers := [], bodyChunks := [],
      jsonBody := some [("error", "File not found")], bytesRead := 0 }
  | some file =>
    let file_size := file.length
    let range_header := stripChars (rangeHdr.getD "").toList
    match method with
    | .HEAD =>
      { status := 200
        headers := [("Content-Type", mime),
                    ("Content-Disposition", attachmentHeader download_name),
                    ("Accept-Ranges", "bytes"),
                    ("Content-Length", natStr file_size)]
        bodyChunks := []
        jsonBody := none
        bytesRead := 0 }
    | .GET =>
      if range_header.isEmpty then fullResp file mime download_name
      else
        match parseRange range_header file_size with
        | none => fullResp file mime download_name
        | some (a, b) =>
          if a > b ∨ b ≥ (file_size : Int) then
            { status := 416
              headers := [("Content-Range", "bytes */" ++ natStr file_size)]
              bodyChunks := []
              jsonBody := none
              bytesRead := 0 }
          else
            let chunks := generate file a.toNat (b - a + 1).toNat
            { status := 206
              headers := [("Content-Type", mime),
                          ("Content-Range", "bytes " ++ intStr a ++ "-" ++ intStr b ++
                            "/" ++ natStr file_size),
                          ("Accept-Ranges", "bytes"),
                          ("Content-Length", intStr (b - a + 1)),
                          ("Content-Disposition", attachmentHeader download_name)]
              bodyChunks := chunks
              jsonBody := none
              bytesRead := chunks.flatten.length }

/-- First matching header value, as Flask header lookup. -/
def getHeader : List (String × String) → String → Option String
  | [], _ => none
  | (k, v) :: rest, key => if k = key then some v else getHeader rest key

/-- Canonical two-sided range header `bytes=<start>-<end>`. -/
def mkRangeHeader (s e : Nat) : String :=
  "bytes=" ++ natStr s ++ "-" ++ natStr e

-- Facts about stripping, splitting and integer parsing on digit strings.

theorem char_ne_of_toNat_ne {c d : Char} (h : c.toNat ≠ d.toNat) : c ≠ d :=
  fun hc => h (by rw [hc])

theorem dropWhile_eq_self_of_all {p : Char → Bool} {l : List Char}
    (h : ∀ c ∈ l, p c = false) : l.dropWhile p = l := by
  cases l with
  | nil => rfl
  | cons a l => simp [List.dropWhile_cons, h a (by simp)]

theorem stripChars_eq_self {cs : List Char} (h : ∀ c ∈ cs, pyWs c = false) :
    stripChars cs = cs := by
  unfold stripChars
  rw [dropWhile_eq_self_of_all h, dropWhile_eq_self_of_all, List.reverse_reverse]
  intro c hc
  exact h c (List.mem_reverse.mp hc)

theorem stripIntWs_eq_self {cs : List Char} (h : ∀ c ∈ cs, pyIntWs c = false) :
    stripIntWs cs = cs := by
  unfold stripIntWs
  rw [dropWhile_eq_self_of_all h, dropWhile_eq_self_of_all, List.reverse_reverse]
  intro c hc
  exact h c (List.mem_reverse.mp hc)

theorem digit_not_pyWs {c : Char} (h : isAsciiDigit c = true) : pyWs c = false := by
  simp [isAsciiDigit] at h
  simp [pyWs]
  omega

theorem digit_not_pyIntWs {c : Char} (h : isAsciiDigit c = true) : pyIntWs c = false := by
  simp [isAsciiDigit] at h
  simp [pyIntWs]
  omega

theorem splitAllChar_no_sep {sep : Char} {l : List Char} (h : ∀ c ∈ l, c ≠ sep) :
    splitAllChar sep l = [l] := by
  induction l with
  | nil => rfl
  | cons a l ih =>
    have ha : a ≠ sep := h a (by simp)
    simp only [splitAllChar, if_neg ha]
    rw [ih (fun c hc => h c (by simp [hc]))]

theorem splitAllChar_two {sep : Char} {l1 l2 : List Char}
    (h1 : ∀ c ∈ l1, c ≠ sep) (h2 : ∀ c ∈ l2, c ≠ sep) :
    splitAllChar sep (l1 ++ sep :: l2) = [l1, l2] := by
  induction l1 with
  | nil => simp [splitAllChar, splitAllChar_no_sep h2]
  | cons a l1 ih =>
    have ha : a ≠ sep := h1 a (by simp)
    simp only [List.cons_append, splitAllChar, if_neg ha, List.append_eq]
    rw [ih (fun c hc => h1 c (by simp [hc]))]

theorem splitOnceChar_first {sep : Char} {l1 l2 : List Char}
    (h1 : ∀ c ∈ l1, c ≠ sep) :
    splitOnceChar sep (l1 ++ sep :: l2) = some (l1, l2) := by
  induction l1 with
  | nil => simp [splitOnceChar]
  | cons a l1 ih =>
    have ha : a ≠ sep := h1 a (by simp)
    simp only [List.cons_append, splitOnceChar, if_neg ha, List.append_eq]
    rw [ih (fun c hc => h1 c (by simp [hc]))]
    rfl

theorem digitsTail_of_all {cs : List Char} (h : ∀ c ∈ cs, isAsciiDigit c = true) :
    digitsTail cs = true := by
  induction cs with
  | nil => rfl
  | cons c rest ih =>
    have hc : isAsciiDigit c = true := h c (by simp)
    have hcu : c ≠ '_' := by
      intro he
      subst he
      simp [isAsciiDigit] at hc
    cases rest with
    | nil => simpa [digitsTail] using hc
    | cons d r =>
      simp only [digitsTail, if_neg hcu, hc, Bool.true_and]
      exact ih (fun x hx => h x (List.mem_cons_of_mem c hx))

theorem pyInt?_natDigits (n : Nat) : pyInt? (natDigits n) = some ((n : Nat) : Int) := by
  have hall := natDigits_all_digits n
  have hne := natDigits_ne_nil n
  unfold pyInt?
  rw [stripIntWs_eq_self (fun c hc => digit_not_pyIntWs (hall c hc))]
  cases hd : natDigits n with
  | nil => exact absurd hd hne
  | cons c rest =>
    have hcd : isAsciiDigit c = true := hall c (by rw [hd]; simp)
    have hc48 : 48 ≤ c.toNat ∧ c.toNat ≤ 57 := by simpa [isAsciiDigit] using hcd
    have h43 : ('+').toNat = 43 := rfl
    have h45 : ('-').toNat = 45 := rfl
    have hplus : c ≠ '+' := char_ne_of_toNat_ne (by omega)
    have hminus : c ≠ '-' := char_ne_of_toNat_ne (by omega)
    have hall' : ∀ x ∈ c :: rest, isAsciiDigit x = true := by
      intro x hx
      exact hall x (by rw [hd]; exact hx)
    have hok : pyDigitGroupOk (c :: rest) = true := by
      simp only [pyDigitGroupOk, hcd, Bool.true_and]
      exact digitsTail_of_all hall'
    have hfilter : (c :: rest).filter isAsciiDigit = c :: rest :=
      List.filter_eq_self.mpr hall'
    have hval : pyIntVal (c :: rest) = n := by
      unfold pyIntVal
      rw [hfilter, ← hd, digitsVal_natDigits]
    simp only [if_neg hplus, if_neg hminus, hok, if_true, hval]

-- Round trips for the canonical range headers.

/-- Open-ended range header `bytes=<start>-`. -/
def mkOpenEndHeader (s : Nat) : String := "bytes=" ++ natStr s ++ "-"

/-- Range header with omitted start, `bytes=-<end>`. -/
def mkOpenStartHeader (e : Nat) : String := "bytes=-" ++ natStr e

theorem mkRangeHeader_toList (s e : Nat) :
    (mkRangeHeader s e).toList =
      ['b', 'y', 't', 'e', 's'] ++ '=' :: (natDigits s ++ '-' :: natDigits e) := by
  show ((("bytes=".data ++ natDigits s) ++ "-".data) ++ natDigits e) = _
  simp

theorem mkOpenEndHeader_toList (s : Nat) :
    (mkOpenEndHeader s).toList =
      ['b', 'y', 't', 'e', 's'] ++ '=' :: (natDigits s ++ ['-']) := by
  show (("bytes=".data ++ natDigits s) ++ "-".data) = _
  simp

theorem mkOpenStartHeader_toList (e : Nat) :
    (mkOpenStartHeader e).toList =
      ['b', 'y', 't', 'e', 's'] ++ '=' :: ('-' :: natDigits e) := by
  show ("bytes=-".data ++ natDigits e) = _
  simp

theorem digit_ne_eq_sign {c : Char} (h : isAsciiDigit c = true) : c ≠ '=' ∧ c ≠ '-' := by
  simp only [isAsciiDigit, Bool.and_eq_true, decide_eq_true_eq] at h
  have h61 : ('=').toNat = 61 := rfl
  have h45 : ('-').toNat = 45 := rfl
  exact ⟨char_ne_of_toNat_ne (by omega), char_ne_of_toNat_ne (by omega)⟩

theorem parseRange_mkRangeHeader (s e size : Nat) :
    parseRange (mkRangeHeader s e).toList size = some ((s : Int), (e : Int)) := by
  rw [mkRangeHeader_toList]
  have hds := natDigits_all_digits s
  have hde := natDigits_all_digits e
  have hsplit : splitAllChar '=' (['b', 'y', 't', 'e', 's'] ++
      '=' :: (natDigits s ++ '-' :: natDigits e)) =
      [['b', 'y', 't', 'e', 's'], natDigits s ++ '-' :: natDigits e] := by
    apply splitAllChar_two
    · intro c hc; fin_cases hc <;> decide
    · intro c hc
      rcases List.mem_append.mp hc with hc | hc
      · exact (digit_ne_eq_sign (hds c hc)).1
      · rcases List.mem_cons.mp hc with hc | hc
        · subst hc; decide
        · exact (digit_ne_eq_sign (hde c hc)).1
  have honce : splitOnceChar '-' (natDigits s ++ '-' :: natDigits e) =
      some (natDigits s, natDigits e) :=
    splitOnceChar_first (fun c hc => (digit_ne_eq_sign (hds c hc)).2)
  have hse : (natDigits s).isEmpty = false := by
    simp [List.isEmpty_iff, natDigits_ne_nil s]
  have hee : (natDigits e).isEmpty = false := by
    simp [List.isEmpty_iff, natDigits_ne_nil e]
  simp only [parseRange, hsplit, honce, hse, hee, Bool.false_eq_true, if_false,
    pyInt?_natDigits]

theorem parseRange_mkOpenEndHeader (s size : Nat) :
    parseRange (mkOpenEndHeader s).toList size = some ((s : Int), (size : Int) - 1) := by
  rw [mkOpenEndHeader_toList]
  have hds := natDigits_all_digits s
  have hsplit : splitAllChar '=' (['b', 'y', 't', 'e', 's'] ++
      '=' :: (natDigits s ++ ['-'])) =
      [['b', 'y', 't', 'e', 's'], natDigits s ++ ['-']] := by
    apply splitAllChar_two
    · intro c hc; fin_cases hc <;> decide
    · intro c hc
      rcases List.mem_append.mp hc with hc | hc
      · exact (digit_ne_eq_sign (hds c hc)).1
      · rcases List.mem_cons.mp hc with hc | hc
        · subst hc; decide
        · simp at hc
  have honce : splitOnceChar '-' (natDigits s ++ ['-']) = some (natDigits s, []) :=
    splitOnceChar_first (fun c hc => (digit_ne_eq_sign (hds c hc)).2)
  have hse : (natDigits s).isEmpty = false := by
    simp [List.isEmpty_iff, natDigits_ne_nil s]
  simp only [parseRange, hsplit, honce, hse, Bool.false_eq_true, if_false,
    List.isEmpty_nil, if_true, pyInt?_natDigits]

theorem parseRange_mkOpenStartHeader (e size : Nat) :
    parseRange (mkOpenStartHeader e).toList size = some (0, (e : Int)) := by
  rw [mkOpenStartHeader_toList]
  have hde := natDigits_all_digits e
  have hsplit : splitAllChar '=' (['b', 'y', 't', 'e', 's'] ++
      '=' :: ('-' :: natDigits e)) =
      [['b', 'y', 't', 'e', 's'], '-' :: natDigits e] := by
    apply splitAllChar_two
    · intro c hc; fin_cases hc <;> decide
    · intro c hc
      rcases List.mem_cons.mp hc with hc | hc
      · subst hc; decide
      · exact (digit_ne_eq_sign (hde c hc)).1
  have honce : splitOnceChar '-' ('-' :: natDigits e) = some ([], natDigits e) := by
    simp [splitOnceChar]
  have hee : (natDigits e).isEmpty = false := by
    simp [List.isEmpty_iff, natDigits_ne_nil e]
  simp only [parseRange, hsplit, honce, hee, Bool.false_eq_true, if_false,
    List.isEmpty_nil, if_true, pyInt?_natDigits]

theorem stripChars_header {lead : List Char} (tail : List Char)
    (hlead : ∀ c ∈ lead, pyWs c = false) (htail : ∀ c ∈ tail, pyWs c = false) :
    stripChars (lead ++ tail) = lead ++ tail := by
  apply stripChars_eq_self
  intro c hc
  rcases List.mem_append.mp hc with hc | hc
  · exact hlead c hc
  · exact htail c hc

-- Behavior of the chunked streaming generator.

theorem generateAux_flatten (file : List Nat) :
    ∀ fuel pos remaining, remaining ≤ fuel → pos + remaining ≤ file.length →
      (generateAux file fuel pos remaining).flatten = (file.drop pos).take remaining := by
  intro fuel
  induction fuel with
  | zero =>
    intro pos remaining hf _
    have : remaining = 0 := Nat.le_zero.mp hf
    subst this
    simp [generateAux]
  | succ fuel ih =>
    intro pos remaining hf hl
    by_cases h0 : remaining = 0
    · subst h0; simp [generateAux]
    · have hlen : (pyRead file pos (min CHUNK remaining)).length = min CHUNK remaining := by
        simp only [pyRead, List.length_take, List.length_drop]
        omega
      have hpos : 0 < min CHUNK remaining := by
        have : 0 < CHUNK := by decide
        omega
      have hne : (pyRead file pos (min CHUNK remaining)).isEmpty = false := by
        rcases hchunk : pyRead file pos (min CHUNK remaining) with _ | ⟨x, xs⟩
        · rw [hchunk] at hlen; simp at hlen; omega
        · rfl
      simp only [generateAux, h0, if_false, hne, Bool.false_eq_true, List.flatten_cons]
      rw [hlen, ih (pos + min CHUNK remaining) (remaining - min CHUNK remaining)
        (by omega) (by omega)]
      show (file.drop pos).take (min CHUNK remaining) ++
          (file.drop (pos + min CHUNK remaining)).take (remaining - min CHUNK remaining) =
          (file.drop pos).take remaining
      have hdd : (file.drop pos).drop (min CHUNK remaining) =
          file.drop (pos + min CHUNK remaining) := by
        rw [List.drop_drop]
      rw [← hdd, ← List.take_add]
      congr 1
      omega

theorem generateAux_chunk_bounds (file : List Nat) :
    ∀ fuel pos remaining, ∀ c ∈ generateAux file fuel pos remaining,
      1 ≤ c.length ∧ c.length ≤ CHUNK := by
  intro fuel
  induction fuel with
  | zero => intro pos remaining c hc; simp [generateAux] at hc
  | succ fuel ih =>
    intro pos remaining c hc
    by_cases h0 : remaining = 0
    · subst h0; simp [generateAux] at hc
    · by_cases hne : (pyRead file pos (min CHUNK remaining)).isEmpty
      · simp [generateAux, h0, hne] at hc
      · simp only [generateAux, h0, if_false, hne, Bool.false_eq_true, List.mem_cons] at hc
        rcases hc with hc | hc
        · subst hc
          constructor
          · have := List.isEmpty_iff.not.mp (by simpa using hne)
            rcases hl : pyRead file pos (min CHUNK remaining) with _ | ⟨x, xs⟩
            · exact absurd hl this
            · simp
          · simp only [pyRead, List.length_take, List.length_drop]
            omega
        · exact ih _ _ c hc

theorem generateAux_total_le (file : List Nat) :
    ∀ fuel pos remaining,
      (generateAux file fuel pos remaining).flatten.length ≤ remaining := by
  intro fuel
  induction fuel with
  | zero => intro pos remaining; simp [generateAux]
  | succ fuel ih =>
    intro pos remaining
    by_cases h0 : remaining = 0
    · subst h0; simp [generateAux]
    · by_cases hne : (pyRead file pos (min CHUNK remaining)).isEmpty
      · simp [generateAux, h0, hne]
      · simp only [generateAux, h0, if_false, hne, Bool.false_eq_true, List.flatten_cons,
          List.length_append]
        have hchlen : (pyRead file pos (min CHUNK remaining)).length ≤ remaining := by
          simp only [pyRead, List.length_take, List.length_drop]
          omega
        have := ih (pos + (pyRead file pos (min CHUNK remaining)).length)
          (remaining - (pyRead file pos (min CHUNK remaining)).length)
        omega

/-!
The control endpoint and the event-stream relay (`control` and `stream`,
server.py lines 116-133).
-/

/-- Closed action set checked by the `control` handler (server.py line 120). -/
def validActions : List String := ["play", "pause", "forward", "reverse"]

/-- Response of the `control` handler. -/
structure CtrlResp where
  status : Nat
  body : List (String × String)
deriving DecidableEq

/-- Embedding of the `control` handler (server.py lines 116-123; named
`control_route` here because the Lean name `control` is taken by the core
library): `action` is `none` when the JSON body has no `action` key;
membership in the closed set gates the `rdb.publish` call, whose argument
list is returned alongside the response. -/
def control_route (action : Option String) : CtrlResp × List String :=
  match action with
  | some a =>
    if a ∈ validActions then (⟨200, [("status", "ok"), ("sent", a)]⟩, [a])
    else (⟨400, [("status", "error"), ("message", "Invalid action")]⟩, [])
  | none => (⟨400, [("status", "error"), ("message", "Invalid action")]⟩, [])

/-- The event frame emitted by `event_stream` for one delivered command
(server.py line 132). -/
def frame (action : String) : String := "data: " ++ action ++ "\n\n"

/-- Modelled from the spec: the broadcast medium (the redis channel behind
`rdb.publish` / `pubsub.listen`, an external collaborator) delivers a
published message once to every currently subscribed listener, in publish
order, with no persistence or replay for listeners that subscribe later.
A subscriber is its queue of received event frames; each delivery appends
the frame `event_stream` yields for the message. -/
def busPublish (msg : String) (subs : List (List String)) : List (List String) :=
  subs.map (fun q => q ++ [frame msg])

/-- Deliver a list of published messages in order. -/
def busPublishAll (msgs : List String) (subs : List (List String)) : List (List String) :=
  msgs.foldl (fun s m => busPublish m s) subs

/-- A new subscriber registers with an empty queue (`pubsub.subscribe`,
server.py line 129); nothing already published is replayed to it. -/
def busSubscribe (subs : List (List String)) : List (List String) := subs ++ [[]]

/-- One `POST /control` request followed by the resulting bus deliveries. -/
def controlPublish (action : Option String) (subs : List (List String)) :
    List (List String) :=
  busPublishAll (control_route action).2 subs

/-- State of the stream relay: each connection is a client id paired with an
open flag, and `registry` lists the client ids currently subscribed to the
control channel. -/
structure StreamState where
  conns : List (Nat × Bool)
  registry : List Nat
deriving DecidableEq

/-- Transitions of the relay, read off the `stream` handler (server.py lines
125-133).  `connect` is a client opening the event stream: the handler calls
`pubsub.subscribe(CHANNEL)` and enters the receive loop.  `disconnect` is the
peer connection closing: the WSGI server closes the generator, which ends the
`for message in pubsub.listen()` loop by exception propagation; the generator
body contains no unsubscribe, close or finally clause, so the registry entry
made by `subscribe` is not removed. -/
inductive StreamStep : StreamState → StreamState → Prop
  | connect (s : StreamState) (n : Nat) :
      StreamStep s ⟨s.conns ++ [(n, true)], s.registry ++ [n]⟩
  | disconnect (s : StreamState) (n : Nat) :
      StreamStep s ⟨s.conns.map (fun p => if p.1 = n then (n, false) else p), s.registry⟩

/-- States reachable from the empty relay. -/
inductive StreamReachable : StreamState → Prop
  | init : StreamReachable ⟨[], []⟩
  | step {s t : StreamState} : StreamReachable s → StreamStep s t → StreamReachable t

/-- Leak freedom as claimed: every registered subscriber has an open
connection. -/
def leakFree (s : StreamState) : Prop :=
  ∀ n ∈ s.registry, (n, true) ∈ s.conns

-- Bridging fact between the integer and natural decimal strings.

theorem intStr_ofNat (n : Nat) : intStr (n : Int) = natStr n := by
  unfold intStr natStr
  rw [if_neg (Int.not_lt.mpr (Int.ofNat_nonneg n))]
  simp

/-!
Claim theorems.
-/

/-- Claim C9: the HEAD branch of `send_with_range` runs before the Range
header is parsed, so for a present artifact a HEAD request returns the same
headers-only 200 response for every Range header value (absent, well-formed,
malformed or unsatisfiable); a HEAD never yields 206 or 416. -/
theorem head_ignores_range (file : List Nat) (mime dn : String) (rh : Option String) :
    send_with_range (some file) mime dn .HEAD rh =
      send_with_range (some file) mime dn .HEAD none ∧
    (send_with_range (some file) mime dn .HEAD rh).status = 200 := by
  constructor <;> rfl

/-- Claim C8: a HEAD response on a present artifact carries exactly
Content-Type, Content-Disposition, Accept-Ranges: bytes and Content-Length
equal to the artifact size, has no body, reads no artifact data, and its
header set is identical (up to order) to that of an unranged GET, whose
values for the four headers agree. -/
theorem head_get_parity (file : List Nat) (mime dn : String) :
    (send_with_range (some file) mime dn .HEAD none).headers =
      [("Content-Type", mime), ("Content-Disposition", attachmentHeader dn),
       ("Accept-Ranges", "bytes"), ("Content-Length", natStr file.length)] ∧
    (send_with_range (some file) mime dn .HEAD none).bodyChunks = [] ∧
    (send_with_range (some file) mime dn .HEAD none).bytesRead = 0 ∧
    (send_with_range (some file) mime dn .HEAD none).headers.Perm
      (send_with_range (some file) mime dn .GET none).headers ∧
    getHeader (send_with_range (some file) mime dn .GET none).headers
      "Content-Type" = some mime ∧
    getHeader (send_with_range (some file) mime dn .GET none).headers
      "Content-Disposition" = some (attachmentHeader dn) ∧
    getHeader (send_with_range (some file) mime dn .GET none).headers
      "Accept-Ranges" = some "bytes" ∧
    getHeader (send_with_range (some file) mime dn .GET none).headers
      "Content-Length" = some (natStr file.length) := by
  refine ⟨rfl, rfl, rfl, ?_, rfl, rfl, rfl, rfl⟩
  show ([("Content-Type", mime), ("Content-Disposition", attachmentHeader dn),
       ("Accept-Ranges", "bytes"), ("Content-Length", natStr file.length)]).Perm
    [("Content-Type", mime), ("Content-Disposition", attachmentHeader dn),
     ("Content-Length", natStr file.length), ("Accept-Ranges", "bytes")]
  exact .cons _ (.cons _ (.swap _ _ _))

/-- Claim C7: a POST to the control endpoint with an action outside the
closed set returns 400 with the error body and publishes nothing (so no
subscriber queue changes), while a member of the set is published exactly
once with the ok body. -/
theorem control_validation (a : String) (subs : List (List String)) :
    (control_route none =
        (⟨400, [("status", "error"), ("message", "Invalid action")]⟩, []) ∧
      controlPublish none subs = subs) ∧
    (a ∉ validActions →
      control_route (some a) =
        (⟨400, [("status", "error"), ("message", "Invalid action")]⟩, []) ∧
      controlPublish (some a) subs = subs) ∧
    (a ∈ validActions →
      control_route (some a) = (⟨200, [("status", "ok"), ("sent", a)]⟩, [a]) ∧
      controlPublish (some a) subs = busPublish a subs) := by
  refine ⟨⟨rfl, rfl⟩, fun h => ?_, fun h => ?_⟩
  · constructor <;> simp [control_route, h, controlPublish, busPublishAll]
  · constructor <;> simp [control_route, h, controlPublish, busPublishAll]

/-- Witness for C7 at the concrete actions `stop` (invalid) and `play`
(valid). -/
theorem control_validation_w :
    ("stop" ∉ validActions ∧
      control_route (some "stop") =
        (⟨400, [("status", "error"), ("message", "Invalid action")]⟩, []) ∧
      controlPublish (some "stop") [[]] = [[]]) ∧
    ("play" ∈ validActions ∧
      control_route (some "play") = (⟨200, [("status", "ok"), ("sent", "play")]⟩, ["play"]) ∧
      controlPublish (some "play") [[]] = busPublish "play" [[]]) :=
  ⟨⟨by decide, ((control_validation "stop" [[]]).2.1 (by decide)).1,
    ((control_validation "stop" [[]]).2.1 (by decide)).2⟩,
   ⟨by decide, ((control_validation "play" [[]]).2.2 (by decide)).1,
    ((control_validation "play" [[]]).2.2 (by decide)).2⟩⟩

/-- Claim C3: publishing two valid commands in order while two subscribers
are connected delivers the corresponding frames to both subscribers in
publish order, one frame per command; a subscriber registering after both
publishes has an empty queue (no buffering or replay). -/
theorem fanout_order_no_replay (a b : String)
    (ha : a ∈ validActions) (hb : b ∈ validActions) :
    controlPublish (some b) (controlPublish (some a) [[], []]) =
      [[frame a, frame b], [frame a, frame b]] ∧
    busSubscribe (controlPublish (some b) (controlPublish (some a) [[], []])) =
      [[frame a, frame b], [frame a, frame b], []] := by
  constructor <;>
    simp [controlPublish, control_route, ha, hb, busPublishAll, busPublish, busSubscribe]

/-- Witness for C3 at `play` then `pause`. -/
theorem fanout_order_no_replay_w :
    "play" ∈ validActions ∧ "pause" ∈ validActions ∧
    controlPublish (some "pause") (controlPublish (some "play") [[], []]) =
      [[frame "play", frame "pause"], [frame "play", frame "pause"]] ∧
    busSubscribe (controlPublish (some "pause") (controlPublish (some "play") [[], []])) =
      [[frame "play", frame "pause"], [frame "play", frame "pause"], []] :=
  ⟨by decide, by decide,
   (fanout_order_no_replay "play" "pause" (by decide) (by decide)).1,
   (fanout_order_no_replay "play" "pause" (by decide) (by decide)).2⟩

/-- Claim C2 (refuting theorem): the state in which client 0 has subscribed
and then disconnected is reachable, and in it the registry still contains
the departed subscriber — `event_stream` (server.py lines 127-132) has no
unsubscribe, close or finally clause, so its registry entry survives the
disconnect.  This contradicts the claimed invariant that every reachable
state registers only subscribers with open connections. -/
theorem stream_teardown_leak :
    StreamReachable ⟨[(0, false)], [0]⟩ ∧ ¬ leakFree ⟨[(0, false)], [0]⟩ := by
  constructor
  · have h1 : StreamReachable ⟨[(0, true)], [0]⟩ :=
      .step .init (.connect ⟨[], []⟩ 0)
    exact .step h1 (StreamStep.disconnect ⟨[(0, true)], [0]⟩ 0)
  · intro h
    have := h 0 (by simp)
    simp at this

/-- Claim C4 (counterexample): the header `foo=0-10` does not have the form
`bytes=<start>?-<end>?`, yet the code serves it as a range request with
status 206 rather than the claimed 200 — the units token of the Range header
is never validated by `send_with_range`. -/
theorem malformed_units_206 :
    (send_with_range (some (List.replicate 20 0)) "image/png" "icon.png" .GET
      (some "foo=0-10")).status = 206 := by
  decide

/-- Claim C4 (amended): a GET whose Range header is absent, or fails the
parse the code actually performs (exactly one `=` with a `-` after it and
integer bounds; the units token is arbitrary), is answered exactly like a
request with no Range header: status 200, the full artifact as body,
Content-Length equal to the size, and Accept-Ranges: bytes. -/
theorem malformed_fallback (file : List Nat) (mime dn rh : String)
    (hp : parseRange (stripChars rh.toList) file.length = none) :
    send_with_range (some file) mime dn .GET (some rh) =
      send_with_range (some file) mime dn .GET none ∧
    (send_with_range (some file) mime dn .GET none).status = 200 ∧
    (send_with_range (some file) mime dn .GET none).bodyChunks.flatten = file ∧
    getHeader (send_with_range (some file) mime dn .GET none).headers
      "Content-Length" = some (natStr file.length) ∧
    getHeader (send_with_range (some file) mime dn .GET none).headers
      "Accept-Ranges" = some "bytes" := by
  have hfull : send_with_range (some file) mime dn .GET none = fullResp file mime dn := rfl
  refine ⟨?_, rfl, ?_, rfl, rfl⟩
  · rw [hfull]
    cases h : stripChars rh.toList with
    | nil =>
      simp only [send_with_range, Option.getD_some, h, List.isEmpty_nil, if_true]
    | cons c cs =>
      rw [h] at hp
      simp only [send_with_range, Option.getD_some, h, List.isEmpty_cons,
        Bool.false_eq_true, if_false, hp]
  · rw [hfull]
    show ([file] : List (List Nat)).flatten = file
    simp

/-- Witness for the amended C4 at the unparseable header `foo`. -/
theorem malformed_fallback_w :
    parseRange (stripChars "foo".toList) (List.replicate 7 0).length = none ∧
    send_with_range (some (List.replicate 7 0)) "image/png" "icon.png" .GET (some "foo") =
      send_with_range (some (List.replicate 7 0)) "image/png" "icon.png" .GET none ∧
    (send_with_range (some (List.replicate 7 0)) "image/png" "icon.png" .GET none).status =
      200 := by
  refine ⟨by decide, ?_, ?_⟩
  · exact (malformed_fallback (List.replicate 7 0) "image/png" "icon.png" "foo"
      (by decide)).1
  · exact (malformed_fallback (List.replicate 7 0) "image/png" "icon.png" "foo"
      (by decide)).2.1

/-- Claim C5: a GET whose Range header parses (after defaulting omitted
bounds) to `start > end` or `end ≥ size` is answered with 416, an empty
body, header `Content-Range: bytes */<size>`, and no artifact bytes are
read. -/
theorem unsat_range (file : List Nat) (mime dn rh : String) (a b : Int)
    (hp : parseRange (stripChars rh.toList) file.length = some (a, b))
    (hc : a > b ∨ b ≥ (file.length : Int)) :
    (send_with_range (some file) mime dn .GET (some rh)).status = 416 ∧
    getHeader (send_with_range (some file) mime dn .GET (some rh)).headers
      "Content-Range" = some ("bytes */" ++ natStr file.length) ∧
    (send_with_range (some file) mime dn .GET (some rh)).bodyChunks = [] ∧
    (send_with_range (some file) mime dn .GET (some rh)).bytesRead = 0 := by
  cases h : stripChars rh.toList with
  | nil =>
    rw [h] at hp
    simp [parseRange, splitAllChar] at hp
  | cons c cs =>
    rw [h] at hp
    have hresp : send_with_range (some file) mime dn .GET (some rh) =
        { status := 416
          headers := [("Content-Range", "bytes */" ++ natStr file.length)]
          bodyChunks := []
          jsonBody := none
          bytesRead := 0 } := by
      simp only [send_with_range, Option.getD_some, h, List.isEmpty_cons,
        Bool.false_eq_true, if_false, hp]
      rw [if_pos hc]
    rw [hresp]
    exact ⟨rfl, rfl, rfl, rfl⟩

/-- Witness for C5: `bytes=2000-2500` on a 1000-byte artifact. -/
theorem unsat_range_w :
    parseRange (stripChars "bytes=2000-2500".toList) (List.replicate 1000 0).length =
      some (2000, 2500) ∧
    (send_with_range (some (List.replicate 1000 0)) "video/mp4" "v.mp4" .GET
      (some "bytes=2000-2500")).status = 416 ∧
    getHeader (send_with_range (some (List.replicate 1000 0)) "video/mp4" "v.mp4" .GET
      (some "bytes=2000-2500")).headers "Content-Range" =
      some ("bytes */" ++ natStr (List.replicate 1000 0).length) ∧
    (send_with_range (some (List.replicate 1000 0)) "video/mp4" "v.mp4" .GET
      (some "bytes=2000-2500")).bodyChunks = [] := by
  have hlen : (List.replicate 1000 0).length = 1000 := List.length_replicate 1000 0
  have hp : parseRange (stripChars "bytes=2000-2500".toList)
      (List.replicate 1000 0).length = some (2000, 2500) := by
    rw [hlen]
    decide
  have h := unsat_range (List.replicate 1000 0) "video/mp4" "v.mp4" "bytes=2000-2500"
    2000 2500 hp (Or.inr (by rw [hlen]; decide))
  exact ⟨hp, h.1, h.2.1, h.2.2.1⟩

-- Small stepping lemmas for header lookup.

theorem getHeader_cons_ne {k key v : String} {rest : List (String × String)}
    (h : k ≠ key) : getHeader ((k, v) :: rest) key = getHeader rest key := by
  simp [getHeader, h]

theorem getHeader_cons_eq {k v : String} {rest : List (String × String)} :
    getHeader ((k, v) :: rest) k = some v := by
  simp [getHeader]

/-- Claim C6: a parseable Range header with an omitted start bound defaults
it to 0 and with an omitted end bound defaults it to size-1; in particular
`bytes=500-` on a 1000-byte artifact yields 206 with
`Content-Range: bytes 500-999/1000` and Content-Length 500. -/
theorem omitted_bound_defaults (size s e : Nat) (file : List Nat) (mime dn : String)
    (hf : file.length = 1000) :
    parseRange (mkOpenEndHeader s).toList size = some ((s : Int), (size : Int) - 1) ∧
    parseRange (mkOpenStartHeader e).toList size = some (0, (e : Int)) ∧
    (send_with_range (some file) mime dn .GET (some "bytes=500-")).status = 206 ∧
    getHeader (send_with_range (some file) mime dn .GET (some "bytes=500-")).headers
      "Content-Range" = some "bytes 500-999/1000" ∧
    getHeader (send_with_range (some file) mime dn .GET (some "bytes=500-")).headers
      "Content-Length" = some "500" := by
  have hsc : stripChars "bytes=500-".toList = 'b' :: "ytes=500-".toList := by decide
  have hp : parseRange ('b' :: "ytes=500-".toList) file.length =
      some ((500 : Int), (999 : Int)) := by
    rw [hf]
    decide
  have hresp : send_with_range (some file) mime dn .GET (some "bytes=500-") =
      { status := 206
        headers := [("Content-Type", mime),
          ("Content-Range", "bytes " ++ intStr 500 ++ "-" ++ intStr 999 ++ "/" ++
            natStr file.length),
          ("Accept-Ranges", "bytes"),
          ("Content-Length", intStr ((999 : Int) - 500 + 1)),
          ("Content-Disposition", attachmentHeader dn)]
        bodyChunks := generate file (500 : Int).toNat ((999 : Int) - 500 + 1).toNat
        jsonBody := none
        bytesRead :=
          (generate file (500 : Int).toNat ((999 : Int) - 500 + 1).toNat).flatten.length } := by
    simp only [send_with_range, Option.getD_some, hsc, List.isEmpty_cons,
      Bool.false_eq_true, if_false, hp]
    rw [if_neg (by rw [hf]; decide)]
  refine ⟨parseRange_mkOpenEndHeader s size, parseRange_mkOpenStartHeader e size,
    ?_, ?_, ?_⟩
  · rw [hresp]
  · rw [hresp, hf, getHeader_cons_ne (by decide), getHeader_cons_eq]
    decide
  · rw [hresp, getHeader_cons_ne (by decide), getHeader_cons_ne (by decide),
      getHeader_cons_ne (by decide), getHeader_cons_eq]
    decide

/-- Witness for C6 at size 1000 and a 1000-byte artifact. -/
theorem omitted_bound_defaults_w :
    parseRange (mkOpenEndHeader 500).toList 1000 = some ((500 : Int), (1000 : Int) - 1) ∧
    parseRange (mkOpenStartHeader 250).toList 1000 = some (0, (250 : Int)) ∧
    (send_with_range (some (List.replicate 1000 0)) "video/mp4" "v.mp4" .GET
      (some "bytes=500-")).status = 206 ∧
    getHeader (send_with_range (some (List.replicate 1000 0)) "video/mp4" "v.mp4" .GET
      (some "bytes=500-")).headers "Content-Range" = some "bytes 500-999/1000" ∧
    getHeader (send_with_range (some (List.replicate 1000 0)) "video/mp4" "v.mp4" .GET
      (some "bytes=500-")).headers "Content-Length" = some "500" := by
  have h := omitted_bound_defaults 1000 500 250 (List.replicate 1000 0) "video/mp4"
    "v.mp4" (List.length_replicate 1000 0)
  exact ⟨h.1, h.2.1, h.2.2.1, h.2.2.2.1, h.2.2.2.2⟩

/-- Claim C1 (range coverage law): for every present artifact and all
`start ≤ end < size`, a GET with header `bytes=<start>-<end>` returns 206,
`Content-Range: bytes <start>-<end>/<size>`, Content-Length `end-start+1`,
and a chunk stream whose concatenation is byte-identical to the requested
slice of the artifact and has exactly the declared length (the final chunk
is truncated, no byte past `end` is emitted). -/
theorem range_coverage (file : List Nat) (mime dn : String) (s e : Nat)
    (h1 : s ≤ e) (h2 : e < file.length) :
    (send_with_range (some file) mime dn .GET (some (mkRangeHeader s e))).status = 206 ∧
    getHeader (send_with_range (some file) mime dn .GET
        (some (mkRangeHeader s e))).headers "Content-Range" =
      some ("bytes " ++ natStr s ++ "-" ++ natStr e ++ "/" ++ natStr file.length) ∧
    getHeader (send_with_range (some file) mime dn .GET
        (some (mkRangeHeader s e))).headers "Content-Length" =
      some (natStr (e - s + 1)) ∧
    (send_with_range (some file) mime dn .GET
        (some (mkRangeHeader s e))).bodyChunks.flatten =
      (file.drop s).take (e - s + 1) ∧
    (send_with_range (some file) mime dn .GET
        (some (mkRangeHeader s e))).bodyChunks.flatten.length = e - s + 1 := by
  have hstrip : stripChars (mkRangeHeader s e).toList = (mkRangeHeader s e).toList := by
    rw [mkRangeHeader_toList]
    apply stripChars_eq_self
    intro c hc
    rcases List.mem_append.mp hc with hc | hc
    · fin_cases hc <;> decide
    · rcases List.mem_cons.mp hc with hc | hc
      · subst hc; decide
      · rcases List.mem_append.mp hc with hc | hc
        · exact digit_not_pyWs (natDigits_all_digits s c hc)
        · rcases List.mem_cons.mp hc with hc | hc
          · subst hc; decide
          · exact digit_not_pyWs (natDigits_all_digits e c hc)
  have hp : parseRange (stripChars (mkRangeHeader s e).toList) file.length =
      some ((s : Int), (e : Int)) := by
    rw [hstrip]
    exact parseRange_mkRangeHeader s e file.length
  have hcond : ¬((s : Int) > (e : Int) ∨ (e : Int) ≥ (file.length : Int)) := by
    push_neg
    exact ⟨by exact_mod_cast h1, by exact_mod_cast h2⟩
  have hresp : send_with_range (some file) mime dn .GET (some (mkRangeHeader s e)) =
      { status := 206
        headers := [("Content-Type", mime),
          ("Content-Range", "bytes " ++ intStr (s : Int) ++ "-" ++ intStr (e : Int) ++
            "/" ++ natStr file.length),
          ("Accept-Ranges", "bytes"),
          ("Content-Length", intStr ((e : Int) - (s : Int) + 1)),
          ("Content-Disposition", attachmentHeader dn)]
        bodyChunks := generate file ((s : Int)).toNat (((e : Int) - (s : Int) + 1)).toNat
        jsonBody := none
        bytesRead := (generate file ((s : Int)).toNat
          (((e : Int) - (s : Int) + 1)).toNat).flatten.length } := by
    cases hsc : stripChars (mkRangeHeader s e).toList with
    | nil =>
      rw [hstrip, mkRangeHeader_toList] at hsc
      simp at hsc
    | cons c cs =>
      rw [hsc] at hp
      simp only [send_with_range, Option.getD_some, hsc, List.isEmpty_cons,
        Bool.false_eq_true, if_false, hp]
      rw [if_neg hcond]
  have hsnat : ((s : Int)).toNat = s := Int.toNat_ofNat s
  have hlnat : (((e : Int) - (s : Int) + 1)).toNat = e - s + 1 := by omega
  have hbody : (generate file ((s : Int)).toNat
      (((e : Int) - (s : Int) + 1)).toNat).flatten = (file.drop s).take (e - s + 1) := by
    rw [hsnat, hlnat]
    exact generateAux_flatten file (e - s + 1) s (e - s + 1) le_rfl (by omega)
  refine ⟨?_, ?_, ?_, ?_, ?_⟩
  · rw [hresp]
  · rw [hresp, getHeader_cons_ne (by decide), getHeader_cons_eq,
      intStr_ofNat, intStr_ofNat]
  · rw [hresp, getHeader_cons_ne (by decide), getHeader_cons_ne (by decide),
      getHeader_cons_ne (by decide), getHeader_cons_eq]
    have hcast : ((e : Int) - (s : Int) + 1) = ((e - s + 1 : Nat) : Int) := by omega
    rw [hcast, intStr_ofNat]
  · rw [hresp]
    exact hbody
  · rw [hresp]
    show (generate file ((s : Int)).toNat
      (((e : Int) - (s : Int) + 1)).toNat).flatten.length = e - s + 1
    rw [hbody, List.length_take, List.length_drop]
    omega

/-- Witness for C1 on a six-byte artifact with range 1-3. -/
theorem range_coverage_w :
    (1 : Nat) ≤ 3 ∧ (3 : Nat) < ([10, 11, 12, 13, 14, 15] : List Nat).length ∧
    (send_with_range (some [10, 11, 12, 13, 14, 15]) "video/mp4" "v.mp4" .GET
      (some (mkRangeHeader 1 3))).status = 206 ∧
    (send_with_range (some [10, 11, 12, 13, 14, 15]) "video/mp4" "v.mp4" .GET
      (some (mkRangeHeader 1 3))).bodyChunks.flatten =
      (([10, 11, 12, 13, 14, 15] : List Nat).drop 1).take (3 - 1 + 1) ∧
    (send_with_range (some [10, 11, 12, 13, 14, 15]) "video/mp4" "v.mp4" .GET
      (some (mkRangeHeader 1 3))).bodyChunks.flatten.length = 3 - 1 + 1 := by
  have h := range_coverage [10, 11, 12, 13, 14, 15] "video/mp4" "v.mp4" 1 3
    (by decide) (by decide)
  exact ⟨by decide, by decide, h.1, h.2.2.2.1, h.2.2.2.2⟩

/-- Claim C10: for a satisfiable parsed range of length `L = end-start+1`
the (total, hence terminating) chunk generator emits chunks of at least one
and at most `CHUNK = 65536` bytes, and the emitted bytes total at most `L`
(here exactly `L`, since the range lies inside the artifact). -/
theorem generator_bounded (file : List Nat) (s e : Nat)
    (h1 : s ≤ e) (h2 : e < file.length) :
    CHUNK = 65536 ∧
    (∀ c ∈ generate file s (e - s + 1), 1 ≤ c.length ∧ c.length ≤ CHUNK) ∧
    (generate file s (e - s + 1)).flatten.length ≤ e - s + 1 ∧
    (generate file s (e - s + 1)).flatten.length = e - s + 1 := by
  refine ⟨rfl, fun c hc => generateAux_chunk_bounds file (e - s + 1) s (e - s + 1) c hc,
    generateAux_total_le file (e - s + 1) s (e - s + 1), ?_⟩
  show (generateAux file (e - s + 1) s (e - s + 1)).flatten.length = e - s + 1
  rw [generateAux_flatten file (e - s + 1) s (e - s + 1) le_rfl (by omega),
    List.length_take, List.length_drop]
  omega

/-- Witness for C10 on a four-byte artifact with range 1-2. -/
theorem generator_bounded_w :
    (1 : Nat) ≤ 2 ∧ (2 : Nat) < ([7, 8, 9, 10] : List Nat).length ∧
    CHUNK = 65536 ∧
    (generate [7, 8, 9, 10] 1 (2 - 1 + 1)).flatten.length ≤ 2 - 1 + 1 ∧
    (generate [7, 8, 9, 10] 1 (2 - 1 + 1)).flatten.length = 2 - 1 + 1 := by
  have h := generator_bounded [7, 8, 9, 10] 1 2 (by decide) (by decide)
  exact ⟨by decide, by decide, h.1, h.2.2.1, h.2.2.2⟩
